import Mathlib

/-!
Verification of the detection pipeline in `src/yolo_detector.cpp` and
`src/ffi_bridge.cpp` (flutter_yolo_open_kit).

The C++ code is shallowly embedded: `float` arithmetic is modelled over `ℚ`,
`int`/`int64_t` over `ℤ` (with `Int.tdiv` for C truncating division and
`ratTrunc` for `static_cast<int>(float)`), raw tensors as total functions
`ℕ → ℚ`, and `std::vector<Detection>` as `List Detection`.  `std::exp` and the
OpenCV resize are external calls and appear as function parameters.
-/

namespace YoloKit

/-- Model type enumeration from `yolo_detector.hpp`:
`YOLOV8` (anchor-free, no objectness), `YOLOX` (grid + objectness),
`PPYOLOE` (pre-decoded, pre-NMS). -/
inductive ModelType where
  | YOLOV8
  | YOLOX
  | PPYOLOE
deriving DecidableEq, Repr

/-- The `Detection` struct from `yolo_detector.hpp`. -/
structure Detection where
  class_id : ℤ
  class_name : String
  confidence : ℚ
  x1 : ℚ
  y1 : ℚ
  x2 : ℚ
  y2 : ℚ
deriving DecidableEq, Repr

/-- The mutable fields of the `YoloDetector` class that the detection
pipeline reads (the ONNX session handles are external state). -/
structure YoloDetector where
  m_initialized : Bool
  m_input_width : ℕ
  m_input_height : ℕ
  m_num_classes : ℤ
  m_model_type : ModelType
  m_class_names : List String
deriving Repr

/-- Truncation of a rational toward zero, the semantics of C++
`static_cast<int>` on a float value. -/
def ratTrunc (q : ℚ) : ℤ :=
  q.num.tdiv (q.den : ℤ)

/-- Clamp `v` into `[0, hi]`, the `std::max(0.0f, std::min(v, hi))` pattern
used throughout `postprocess`. -/
def clampQ (v hi : ℚ) : ℚ :=
  max 0 (min v hi)

/-- Class-name lookup from `postprocess`: in-range ids index
`m_class_names`, out-of-range ids degrade to a synthetic label. -/
def className (names : List String) (cid : ℤ) : String :=
  if cid < (names.length : ℤ) then names.getD cid.toNat "" else "class_" ++ toString cid

/-- Intersection area of the two axis-aligned boxes, from `YoloDetector::iou`. -/
def interArea (a b : Detection) : ℚ :=
  max 0 (min a.x2 b.x2 - max a.x1 b.x1) * max 0 (min a.y2 b.y2 - max a.y1 b.y1)

/-- Union area as computed by `YoloDetector::iou`
(`a_area + b_area - inter_area`, no clamping of the box areas). -/
def unionArea (a b : Detection) : ℚ :=
  (a.x2 - a.x1) * (a.y2 - a.y1) + (b.x2 - b.x1) * (b.y2 - b.y1) - interArea a b

/-- Intersection over union, from `YoloDetector::iou`; a non-positive union
area yields `0`. -/
def iou (a b : Detection) : ℚ :=
  if 0 < unionArea a b then interArea a b / unionArea a b else 0

/-- Insert a detection into a confidence-descending list.  Models one step of
the `std::sort` comparator `a.confidence > b.confidence`; ties keep the
original order (the comparator leaves tie order unspecified, a stable order is
one permitted outcome). -/
def sortInsert (d : Detection) : List Detection → List Detection
  | [] => [d]
  | e :: es => if d.confidence < e.confidence then e :: sortInsert d es else d :: e :: es

/-- Sort detections by confidence descending (the `std::sort` call opening
`YoloDetector::nms`). -/
def sortByConf : List Detection → List Detection
  | [] => []
  | d :: rest => sortInsert d (sortByConf rest)

/-- Compatibility test from the inner loop of `YoloDetector::nms`: detection
`j` survives keeper `d` unless they share a class and their IoU exceeds the
threshold. -/
def nmsOk (thr : ℚ) (d j : Detection) : Bool :=
  !(decide (d.class_id = j.class_id) && decide (thr < iou d j))

/-- Remove from `l` every detection suppressed by the newly kept `d`
(the `suppressed[j] = true` marking in `YoloDetector::nms`). -/
def suppressFilter (thr : ℚ) (d : Detection) (l : List Detection) : List Detection :=
  l.filter (nmsOk thr d)

/-- Greedy keep loop of `YoloDetector::nms` on the sorted list: keep the first
unsuppressed detection, drop everything it suppresses, continue.  The fuel
argument (called with the list length) only makes the recursion structural;
the filtered tail is never longer than the original tail. -/
def nmsKeep (thr : ℚ) : ℕ → List Detection → List Detection
  | _, [] => []
  | 0, _ :: _ => []
  | fuel + 1, d :: rest => d :: nmsKeep thr fuel (suppressFilter thr d rest)

/-- Non-maximum suppression, `YoloDetector::nms`: sort by confidence
descending, then greedily keep/suppress. -/
def nms (detections : List Detection) (iou_threshold : ℚ) : List Detection :=
  nmsKeep iou_threshold (sortByConf detections).length (sortByConf detections)

/-- Greedy NMS as the spec states it: walk the sorted list keeping a history
of previously kept detections; a detection is kept iff no previously-kept
detection of the same class has IoU with it exceeding the threshold. -/
def nmsAccum (thr : ℚ) (kept : List Detection) : List Detection → List Detection
  | [] => []
  | d :: rest =>
    if kept.all (fun k => nmsOk thr k d) then d :: nmsAccum thr (d :: kept) rest
    else nmsAccum thr kept rest

/-- Substring test on character lists (the semantics of
`std::string::find(pat) != npos`). -/
def hasSubstr (pat : List Char) : List Char → Bool
  | [] => pat.isPrefixOf []
  | c :: rest => pat.isPrefixOf (c :: rest) || hasSubstr pat rest

/-- Does an input tensor name signal the auxiliary scale input
(`name_str.find("scale") != std::string::npos` in `YoloDetector::init`)? -/
def nameHasScale (s : String) : Bool :=
  hasSubstr "scale".data s.data

/-- One step of the output-shape loop in `YoloDetector::init`: starting from
the current `(model_type, num_classes)` state, inspect one output shape.
`dim1`/`dim2` are `shape[1]`/`shape[2]` when present, else `0`, exactly as in
the source; detection only runs when the shape has at least two dimensions
and the state is not already `PPYOLOE`. -/
def classifyStep (st : ModelType × ℤ) (shape : List ℤ) : ModelType × ℤ :=
  if st.1 = ModelType.PPYOLOE then st
  else
    let dim1 := shape.getD 1 0
    let dim2 := shape.getD 2 0
    if 2 ≤ shape.length then
      if dim1 = 6 ∨ dim2 = 6 then (ModelType.PPYOLOE, 80)
      else if dim2 = 85 ∨ dim1 = 85 then (ModelType.YOLOX, 80)
      else if dim1 = 84 ∨ dim2 = 84 then (ModelType.YOLOV8, 80)
      else
        let features := min dim1 dim2
        if 5 < features then (ModelType.YOLOX, features - 5)
        else if 0 < features then (ModelType.YOLOV8, features - 4)
        else st
    else st

/-- Variant classification of `YoloDetector::init`: a scale-named input forces
`PPYOLOE` with 80 classes; otherwise the output shapes are folded over
`classifyStep` starting from the constructor defaults `(YOLOX, 80)`. -/
def classifyModel (inputNames : List String) (outputShapes : List (List ℤ)) : ModelType × ℤ :=
  if inputNames.any nameHasScale then (ModelType.PPYOLOE, 80)
  else outputShapes.foldl classifyStep (ModelType.YOLOX, 80)

/-- Decision table exactly as the specification words it, including the
claim's final clause that any feature count not exceeding 5 yields
`AnchorFreeNoObjectness` with `f - 4` classes. -/
def claimVariantTable (d1 d2 : ℤ) : ModelType × ℤ :=
  if d1 = 6 ∨ d2 = 6 then (ModelType.PPYOLOE, 80)
  else if d1 = 85 ∨ d2 = 85 then (ModelType.YOLOX, 80)
  else if d1 = 84 ∨ d2 = 84 then (ModelType.YOLOV8, 80)
  else if 5 < min d1 d2 then (ModelType.YOLOX, min d1 d2 - 5)
  else (ModelType.YOLOV8, min d1 d2 - 4)

/-- Decision table as the code actually implements it: like the claim's
table, except that a non-positive feature count leaves the incoming
classification unchanged. -/
def codeVariantTable (st : ModelType × ℤ) (d1 d2 : ℤ) : ModelType × ℤ :=
  if d1 = 6 ∨ d2 = 6 then (ModelType.PPYOLOE, 80)
  else if d1 = 85 ∨ d2 = 85 then (ModelType.YOLOX, 80)
  else if d1 = 84 ∨ d2 = 84 then (ModelType.YOLOV8, 80)
  else if 5 < min d1 d2 then (ModelType.YOLOX, min d1 d2 - 5)
  else if 0 < min d1 d2 then (ModelType.YOLOV8, min d1 d2 - 4)
  else st

/-- Error codes that appear in result strings of the bridge and detector
(`NOT_INITIALIZED`, `IMAGE_LOAD_FAILED`) together with the `InvalidBuffer`
code the specification names for malformed raw buffers. -/
inductive ErrCode where
  | NOT_INITIALIZED
  | IMAGE_LOAD_FAILED
  | INVALID_BUFFER
deriving DecidableEq, Repr

/-- Outcome of the argument-checking prologue of a detection entry point:
either an early error result or proceeding into the pixel pipeline. -/
inductive EntryOutcome where
  | error (code : ErrCode)
  | proceed
deriving DecidableEq, Repr

/-- Prologue of `YoloDetector::detectFromBuffer`: the only check performed
before the BGRA buffer is wrapped and processed is the initialization flag.
Width, height and stride are passed straight to the `cv::Mat` constructor
without validation. -/
def detectFromBufferEntry (initialized : Bool) (width height stride : ℤ) : EntryOutcome :=
  if initialized then EntryOutcome.proceed else EntryOutcome.error ErrCode.NOT_INITIALIZED

/-- Prologue of `YoloDetector::detectFromYUV`: likewise, only the
initialization flag is checked before the NV21 buffer is assembled from the
three planes. -/
def detectFromYUVEntry (initialized : Bool)
    (width height y_row_stride uv_row_stride uv_pixel_stride rotation : ℤ) : EntryOutcome :=
  if initialized then EntryOutcome.proceed else EntryOutcome.error ErrCode.NOT_INITIALIZED

/-- Number of PP-YOLOE rows and the transposed flag, from the shape analysis
opening the `PPYOLOE` branch of `YoloDetector::postprocess`.  `dim1`/`dim2`
are the dimensions extracted at the top of `postprocess`; `count` is the
output element count. -/
def ppyoloeCount (shapeLen : ℕ) (dim1 dim2 : ℤ) (count : ℕ) : ℤ × Bool :=
  if shapeLen = 2 then
    if dim2 = 6 then (dim1, false)
    else if dim1 = 6 then (dim2, true)
    else ((count : ℤ).tdiv 6, false)
  else if 3 ≤ shapeLen then
    if dim1 = 6 ∧ 0 < dim2 then (dim2, true)
    else if dim2 = 6 ∧ 0 < dim1 then (dim1, false)
    else if dim1 = 6 then ((count : ℤ).tdiv 6, true)
    else (0, false)
  else ((count : ℤ).tdiv 6, false)

/-- One row of the PP-YOLOE loop in `YoloDetector::postprocess`: the row is
always read as six consecutive elements (`output + i * 6`), regardless of the
transposed flag computed above.  Rows with score below the confidence
threshold or negative class id are skipped; coordinates are clamped to the
original image bounds. -/
def ppyoloeRow (names : List String) (out : ℕ → ℚ) (W H : ℕ) (conf : ℚ) (i : ℕ) :
    Option Detection :=
  let class_id := ratTrunc (out (i * 6))
  let score := out (i * 6 + 1)
  if score < conf then none
  else if class_id < 0 then none
  else some
    { class_id := class_id
      class_name := className names class_id
      confidence := score
      x1 := clampQ (out (i * 6 + 2)) W
      y1 := clampQ (out (i * 6 + 3)) H
      x2 := clampQ (out (i * 6 + 4)) W
      y2 := clampQ (out (i * 6 + 5)) H }

/-- The complete `PPYOLOE` branch of `YoloDetector::postprocess`: resolve the
row count (empty when non-positive), decode each row, return without NMS. -/
def ppyoloeBranch (names : List String) (out : ℕ → ℚ) (shapeLen : ℕ) (dim1 dim2 : ℤ)
    (count : ℕ) (W H : ℕ) (conf : ℚ) : List Detection :=
  let nd := (ppyoloeCount shapeLen dim1 dim2 count).1
  if nd ≤ 0 then []
  else (List.range nd.toNat).filterMap (ppyoloeRow names out W H conf)

/-- Field access as the specification describes the PP-YOLOE decode: under
the detected layout, field `k` of detection `i` sits at `i * 6 + k` for the
row-major `[N, 6]` / `[1, N, 6]` layouts and at `k * N + i` for the
transposed `[1, 6, N]` layout. -/
def specPpyoloeField (transposed : Bool) (N : ℕ) (out : ℕ → ℚ) (i k : ℕ) : ℚ :=
  if transposed then out (k * N + i) else out (i * 6 + k)

/-- PP-YOLOE decode as the specification words it: read the six fields of
every detection under the detected layout, skip rows below the confidence
threshold or with negative class id, clamp to image bounds. -/
def specPpyoloeDecode (names : List String) (out : ℕ → ℚ) (transposed : Bool) (N : ℕ)
    (W H : ℕ) (conf : ℚ) : List Detection :=
  (List.range N).filterMap fun i =>
    let f := specPpyoloeField transposed N out i
    let class_id := ratTrunc (f 0)
    let score := f 1
    if score < conf then none
    else if class_id < 0 then none
    else some
      { class_id := class_id
        class_name := className names class_id
        confidence := score
        x1 := clampQ (f 2) W
        y1 := clampQ (f 3) H
        x2 := clampQ (f 4) W
        y2 := clampQ (f 5) H }

/-- The flattened `(grid_x, grid_y, stride)` triples precomputed in the
`YOLOX` branch of `YoloDetector::postprocess`: for each stride in
`{8, 16, 32}` a square grid of side `m_input_width / stride`, raster order
(`gy` outer, `gx` inner).  Only the input width is consulted. -/
def gridTriples (w : ℕ) : List (ℕ × ℕ × ℕ) :=
  [8, 16, 32].flatMap fun s =>
    (List.range (w / s)).flatMap fun gy =>
      (List.range (w / s)).map fun gx => (gx, gy, s)

/-- Best class score and index over `numClasses` scores, from the
`max_class_score` scan of the `YOLOX` branch (initial best score `0`,
initial class `0`, strictly-greater updates). -/
def bestClass (numClasses : ℕ) (score : ℕ → ℚ) : ℚ × ℕ :=
  (List.range numClasses).foldl
    (fun acc c => if acc.1 < score c then (score c, c) else acc) (0, 0)

/-- One box of the `YOLOX` loop in `YoloDetector::postprocess`: objectness
pre-filter, best-class scan, grid/stride decode with `std::exp` passed in as
`e`, letterbox inversion and clamping.  The C++ grid lookups `grids_x[i]`
(undefined beyond the vector length) are modelled with default `(0, 0, 0)`. -/
def yoloxBox (names : List String) (numClasses : ℕ) (grids : List (ℕ × ℕ × ℕ))
    (out : ℕ → ℚ) (features : ℕ) (W H : ℕ) (scale : ℚ) (pad_x pad_y : ℤ)
    (conf : ℚ) (e : ℚ → ℚ) (i : ℕ) : Option Detection :=
  let bd : ℕ → ℚ := fun k => out (i * features + k)
  let objectness := bd 4
  if objectness < conf then none
  else
    let best := bestClass numClasses (fun c => bd (5 + c))
    let confidence := objectness * best.1
    if confidence < conf then none
    else
      let g := grids.getD i (0, 0, 0)
      let cx := (bd 0 + (g.1 : ℚ)) * (g.2.2 : ℚ)
      let cy := (bd 1 + (g.2.1 : ℚ)) * (g.2.2 : ℚ)
      let w := e (bd 2) * (g.2.2 : ℚ)
      let h := e (bd 3) * (g.2.2 : ℚ)
      some
        { class_id := (best.2 : ℤ)
          class_name := className names (best.2 : ℤ)
          confidence := confidence
          x1 := clampQ ((cx - w / 2 - (pad_x : ℚ)) / scale) W
          y1 := clampQ ((cy - h / 2 - (pad_y : ℚ)) / scale) H
          x2 := clampQ ((cx + w / 2 - (pad_x : ℚ)) / scale) W
          y2 := clampQ ((cy + h / 2 - (pad_y : ℚ)) / scale) H }

/-- One box of the `YOLOv8` loop in `YoloDetector::postprocess`: transposed
layouts read `features` consecutive values per box, non-transposed layouts
read column-wise; best class score is the confidence, no objectness. -/
def yolov8Box (names : List String) (out : ℕ → ℚ) (transposed : Bool)
    (numBoxes features : ℕ) (W H : ℕ) (scale : ℚ) (pad_x pad_y : ℤ)
    (conf : ℚ) (i : ℕ) : Option Detection :=
  let numClasses := features - 4
  let cx := if transposed then out (i * features) else out i
  let cy := if transposed then out (i * features + 1) else out (numBoxes + i)
  let w := if transposed then out (i * features + 2) else out (2 * numBoxes + i)
  let h := if transposed then out (i * features + 3) else out (3 * numBoxes + i)
  let best := bestClass numClasses
    (fun c => if transposed then out (i * features + 4 + c) else out ((4 + c) * numBoxes + i))
  if best.1 < conf then none
  else
    some
      { class_id := (best.2 : ℤ)
        class_name := className names (best.2 : ℤ)
        confidence := best.1
        x1 := clampQ ((cx - w / 2 - (pad_x : ℚ)) / scale) W
        y1 := clampQ ((cy - h / 2 - (pad_y : ℚ)) / scale) H
        x2 := clampQ ((cx + w / 2 - (pad_x : ℚ)) / scale) W
        y2 := clampQ ((cy + h / 2 - (pad_y : ℚ)) / scale) H }

/-- Dimension extraction at the top of `YoloDetector::postprocess`:
2-dimensional shapes use `shape[0], shape[1]`, shapes of three or more
dimensions use `shape[1], shape[2]`, 1-dimensional shapes use the element
count, and an empty shape aborts (`none`). -/
def postDims (shape : List ℤ) (count : ℕ) : Option (ℤ × ℤ) :=
  if shape.length = 2 then some (shape.getD 0 0, shape.getD 1 0)
  else if 3 ≤ shape.length then some (shape.getD 1 0, shape.getD 2 0)
  else if shape.length = 1 then some ((count : ℤ), 0)
  else none

/-- `YoloDetector::postprocess`: dimension extraction, variant dispatch,
decoding, and (for the letterboxed variants) non-maximum suppression.
`out` is the flat output tensor, `e` models `std::exp`. -/
def postprocess (det : YoloDetector) (e : ℚ → ℚ) (out : ℕ → ℚ) (shape : List ℤ)
    (count : ℕ) (original_width original_height : ℕ) (scale : ℚ) (pad_x pad_y : ℤ)
    (conf_threshold iou_threshold : ℚ) : List Detection :=
  match postDims shape count with
  | none => []
  | some (dim1, dim2) =>
    match det.m_model_type with
    | ModelType.PPYOLOE =>
      ppyoloeBranch det.m_class_names out shape.length dim1 dim2 count
        original_width original_height conf_threshold
    | ModelType.YOLOX =>
      nms
        ((List.range dim1.toNat).filterMap
          (yoloxBox det.m_class_names det.m_num_classes.toNat
            (gridTriples det.m_input_width) out dim2.toNat
            original_width original_height scale pad_x pad_y conf_threshold e))
        iou_threshold
    | ModelType.YOLOV8 =>
      let transposed := dim2 < dim1
      let numBoxes := if transposed then dim1 else dim2
      let features := if transposed then dim2 else dim1
      nms
        ((List.range numBoxes.toNat).filterMap
          (yolov8Box det.m_class_names out transposed numBoxes.toNat features.toNat
            original_width original_height scale pad_x pad_y conf_threshold))
        iou_threshold

/-- One BGR pixel as stored in the canonical `cv::Mat` buffer (`uint8`
channels, blue first). -/
structure Pix where
  b : ℕ
  g : ℕ
  r : ℕ
deriving DecidableEq, Repr

/-- The letterbox scale of `YoloDetector::preprocess` for the non-PPYOLOE
variants: `std::min(input_w / width, input_h / height)` in float
arithmetic. -/
def letterboxScale (iw ih w h : ℕ) : ℚ :=
  min ((iw : ℚ) / (w : ℚ)) ((ih : ℚ) / (h : ℚ))

/-- Resized content width `static_cast<int>(width * scale)` from
`YoloDetector::preprocess`. -/
def letterboxNewW (iw ih w h : ℕ) : ℤ :=
  ratTrunc ((w : ℚ) * letterboxScale iw ih w h)

/-- Resized content height `static_cast<int>(height * scale)` from
`YoloDetector::preprocess`. -/
def letterboxNewH (iw ih w h : ℕ) : ℤ :=
  ratTrunc ((h : ℚ) * letterboxScale iw ih w h)

/-- The transform descriptor `(scale, pad_x, pad_y)` recorded by
`YoloDetector::preprocess`: direct resize with identity descriptor for
`PPYOLOE`; otherwise the letterbox scale with pads of half the leftover
margin, in C++ `int` division (`Int.tdiv`). -/
def preprocessParams (mt : ModelType) (iw ih w h : ℕ) : ℚ × ℤ × ℤ :=
  if mt = ModelType.PPYOLOE then (1, 0, 0)
  else
    (letterboxScale iw ih w h,
      ((iw : ℤ) - letterboxNewW iw ih w h).tdiv 2,
      ((ih : ℤ) - letterboxNewH iw ih w h).tdiv 2)

/-- The canvas built by `YoloDetector::preprocess`: for `PPYOLOE` the direct
resize output itself; otherwise a constant-`(114,114,114)` image of the input
size with the aspect-preserving resize output (`resized`, the external
`cv::resize` result) copied to the rectangle at `(pad_x, pad_y)`. -/
def preprocessCanvas (mt : ModelType) (iw ih w h : ℕ) (resized : ℕ → ℕ → Pix)
    (x y : ℤ) : Pix :=
  if mt = ModelType.PPYOLOE then resized x.toNat y.toNat
  else
    let pad_x := (preprocessParams mt iw ih w h).2.1
    let pad_y := (preprocessParams mt iw ih w h).2.2
    let nw := letterboxNewW iw ih w h
    let nh := letterboxNewH iw ih w h
    if pad_x ≤ x ∧ x < pad_x + nw ∧ pad_y ≤ y ∧ y < pad_y + nh then
      resized (x - pad_x).toNat (y - pad_y).toNat
    else ⟨114, 114, 114⟩

/-- Per-channel value written into the model input tensor by
`YoloDetector::preprocess`: `YOLOX` takes the raw BGR bytes, the other
variants take RGB divided by 255 (`cv::cvtColor(BGR2RGB)` then `/ 255.0f`). -/
def tensorValue (mt : ModelType) (p : Pix) (c : ℕ) : ℚ :=
  if mt = ModelType.YOLOX then
    if c = 0 then (p.b : ℚ) else if c = 1 then (p.g : ℚ) else (p.r : ℚ)
  else
    (if c = 0 then (p.r : ℚ) else if c = 1 then (p.g : ℚ) else (p.b : ℚ)) / 255

/-- The flattened CHW input tensor of `YoloDetector::preprocess`: the value at
flat index `i` of the buffer filled by
`tensor[c * channel_size + y * input_w + x] = value(canvas(x, y), c)`. -/
def inputTensor (mt : ModelType) (iw ih : ℕ) (canvas : ℕ → ℕ → Pix) (i : ℕ) : ℚ :=
  let channel_size := ih * iw
  let c := i / channel_size
  let idx := i % channel_size
  tensorValue mt (canvas (idx % iw) (idx / iw)) c

/-- `YoloDetector::setClassNames`: replaces the class-name table and
overwrites the class count with the new length. -/
def setClassNames (det : YoloDetector) (names : List String) : YoloDetector :=
  { det with m_class_names := names, m_num_classes := (names.length : ℤ) }

/-- The guard of `yolo_set_classes` in `ffi_bridge.cpp`: the parsed name list
is applied only when non-empty (the JSON unmarshalling itself is boundary
code, modelled by passing the parsed list). -/
def yoloSetClasses (det : YoloDetector) (names : List String) : YoloDetector :=
  if names.isEmpty then det else setClassNames det names

/-- A detection lies within the reported image bounds and at or above the
confidence threshold: every coordinate clamped into `[0, W]` / `[0, H]` and
`conf ≤ confidence`. -/
def detInBounds (W H : ℕ) (conf : ℚ) (d : Detection) : Prop :=
  0 ≤ d.x1 ∧ d.x1 ≤ (W : ℚ) ∧ 0 ≤ d.y1 ∧ d.y1 ≤ (H : ℚ) ∧
  0 ≤ d.x2 ∧ d.x2 ≤ (W : ℚ) ∧ 0 ≤ d.y2 ∧ d.y2 ≤ (H : ℚ) ∧
  conf ≤ d.confidence

/-- Confidence-descending order maintained by the NMS sort. -/
def confGe (a b : Detection) : Prop :=
  b.confidence ≤ a.confidence

/-- Pairwise compatibility guaranteed between kept detections: same class
forces IoU at most the threshold. -/
def compat (thr : ℚ) (a b : Detection) : Prop :=
  a.class_id = b.class_id → iou a b ≤ thr

/-- Raster-order block of grid triples for one stride: cell `i` is
`(i % n, i / n, s)` on an `n × n` grid. -/
def rasterBlock (n s : ℕ) : List (ℕ × ℕ × ℕ) :=
  (List.range (n * n)).map fun i => (i % n, i / n, s)

/-- A PP-YOLOE detector instance with one known class, used for the concrete
evaluations below. -/
def ppDet : YoloDetector :=
  { m_initialized := true, m_input_width := 640, m_input_height := 640,
    m_num_classes := 80, m_model_type := ModelType.PPYOLOE, m_class_names := ["person"] }

/-- A YOLOv8-variant detector instance with one known class. -/
def v8Det : YoloDetector :=
  { ppDet with m_model_type := ModelType.YOLOV8 }

/-- A pre-decoded output row claiming score `2` and a box whose stored
`x1 = 5` exceeds its stored `x2 = 3`. -/
def ppOutBad : ℕ → ℚ := fun i => [(0 : ℚ), 2, 5, 1, 3, 2].getD i 0

/-- A well-formed pre-decoded output row: class `0`, score `1`,
box `(2, 3, 4, 5)`. -/
def ppOutGood : ℕ → ℚ := fun i => [(0 : ℚ), 1, 2, 3, 4, 5].getD i 0

/-- A `[1, 6, 2]` transposed pre-decoded tensor: under the transposed layout
both detections read `(class 0, score 1, 10, 20, 30, 40)`, while consecutive
six-element reads see entirely different rows. -/
def trOut : ℕ → ℚ := fun i => [(0 : ℚ), 0, 1, 1, 10, 10, 20, 20, 30, 30, 40, 40].getD i 0

/-- A transposed anchor-free output of six boxes with five features
(`4 + 1` class): box `0` carries a negative width `-4`. -/
def v8Out : ℕ → ℚ := fun i =>
  [(5 : ℚ), 5, -4, 2, 1, 0, 0, 0, 0, 0, 0, 0, 0, 0, 0,
    0, 0, 0, 0, 0, 0, 0, 0, 0, 0, 0, 0, 0, 0, 0].getD i 0

/-- A degenerate zero-area detection box at the origin. -/
def dPoint : Detection :=
  { class_id := 0, class_name := "person", confidence := 1,
    x1 := 0, y1 := 0, x2 := 0, y2 := 0 }

end YoloKit

namespace YoloKit

theorem mem_sortInsert (x d : Detection) (l : List Detection) :
    x ∈ sortInsert d l ↔ x = d ∨ x ∈ l := by
  induction l with
  | nil => simp [sortInsert]
  | cons e es ih =>
    by_cases hlt : d.confidence < e.confidence
    · simp only [sortInsert, if_pos hlt, List.mem_cons, ih]
      tauto
    · simp only [sortInsert, if_neg hlt, List.mem_cons]

theorem sortInsert_perm (d : Detection) (l : List Detection) :
    (sortInsert d l).Perm (d :: l) := by
  induction l with
  | nil => simp [sortInsert]
  | cons e es ih =>
    by_cases hlt : d.confidence < e.confidence
    · rw [sortInsert, if_pos hlt]
      exact (ih.cons e).trans (List.Perm.swap d e es)
    · rw [sortInsert, if_neg hlt]

theorem sortByConf_perm (l : List Detection) : (sortByConf l).Perm l := by
  induction l with
  | nil => rfl
  | cons d rest ih =>
    exact (sortInsert_perm d (sortByConf rest)).trans (ih.cons d)

theorem sortInsert_sorted {d : Detection} {l : List Detection}
    (h : List.Pairwise confGe l) : List.Pairwise confGe (sortInsert d l) := by
  induction l with
  | nil => simp [sortInsert, confGe]
  | cons e es ih =>
    rcases List.pairwise_cons.mp h with ⟨he, hes⟩
    by_cases hlt : d.confidence < e.confidence
    · rw [sortInsert, if_pos hlt]
      refine List.pairwise_cons.mpr ⟨?_, ih hes⟩
      intro x hx
      rcases (mem_sortInsert x d es).mp hx with rfl | hx
      · exact le_of_lt hlt
      · exact he x hx
    · rw [sortInsert, if_neg hlt]
      refine List.pairwise_cons.mpr ⟨?_, h⟩
      intro x hx
      rcases List.mem_cons.mp hx with rfl | hx
      · exact not_lt.mp hlt
      · exact le_trans (he x hx) (not_lt.mp hlt)

theorem sortByConf_sorted (l : List Detection) :
    List.Pairwise confGe (sortByConf l) := by
  induction l with
  | nil => simp [sortByConf]
  | cons d rest ih => exact sortInsert_sorted ih

theorem sortByConf_eq_of_sorted {l : List Detection}
    (h : List.Pairwise confGe l) : sortByConf l = l := by
  induction l with
  | nil => rfl
  | cons d rest ih =>
    rcases List.pairwise_cons.mp h with ⟨hd, hrest⟩
    rw [sortByConf, ih hrest]
    cases rest with
    | nil => rfl
    | cons e es =>
      rw [sortInsert, if_neg (not_lt.mpr (hd e (List.mem_cons_self e es)))]

theorem nmsOk_iff {thr : ℚ} {d j : Detection} :
    nmsOk thr d j = true ↔ compat thr d j := by
  simp only [nmsOk, compat, Bool.not_eq_true', Bool.and_eq_false_iff,
    decide_eq_false_iff_not, not_lt]
  constructor
  · rintro (h | h) hcid
    · exact absurd hcid h
    · exact h
  · intro h
    by_cases hcid : d.class_id = j.class_id
    · exact Or.inr (h hcid)
    · exact Or.inl hcid

theorem nmsKeep_sublist (thr : ℚ) (fuel : ℕ) (l : List Detection) :
    (nmsKeep thr fuel l).Sublist l := by
  induction fuel generalizing l with
  | zero => cases l <;> simp [nmsKeep]
  | succ fuel ih =>
    cases l with
    | nil => simp [nmsKeep]
    | cons d rest =>
      rw [nmsKeep]
      exact ((ih _).trans (List.filter_sublist rest)).cons₂ d

theorem nmsKeep_mem {thr : ℚ} {fuel : ℕ} {l : List Detection} {d : Detection}
    (h : d ∈ nmsKeep thr fuel l) : d ∈ l :=
  (nmsKeep_sublist thr fuel l).subset h

theorem nms_mem {l : List Detection} {thr : ℚ} {d : Detection}
    (h : d ∈ nms l thr) : d ∈ l :=
  (sortByConf_perm l).mem_iff.mp (nmsKeep_mem h)

theorem nmsKeep_pairwise (thr : ℚ) (fuel : ℕ) (l : List Detection) :
    List.Pairwise (compat thr) (nmsKeep thr fuel l) := by
  induction fuel generalizing l with
  | zero => cases l <;> simp [nmsKeep]
  | succ fuel ih =>
    cases l with
    | nil => simp [nmsKeep]
    | cons d rest =>
      rw [nmsKeep]
      refine List.pairwise_cons.mpr ⟨?_, ih _⟩
      intro x hx
      have hx2 : x ∈ suppressFilter thr d rest := nmsKeep_mem hx
      exact nmsOk_iff.mp (List.of_mem_filter hx2)

theorem nmsKeep_eq_of_pairwise (thr : ℚ) (fuel : ℕ) (l : List Detection)
    (hlen : l.length ≤ fuel) (hp : List.Pairwise (compat thr) l) :
    nmsKeep thr fuel l = l := by
  induction fuel generalizing l with
  | zero =>
    cases l with
    | nil => simp [nmsKeep]
    | cons d rest => simp at hlen
  | succ fuel ih =>
    cases l with
    | nil => simp [nmsKeep]
    | cons d rest =>
      rcases List.pairwise_cons.mp hp with ⟨hd, hrest⟩
      have hfilter : suppressFilter thr d rest = rest :=
        List.filter_eq_self.mpr fun j hj => nmsOk_iff.mpr (hd j hj)
      rw [nmsKeep, hfilter, ih rest (Nat.le_of_succ_le_succ hlen) hrest]

theorem nmsKeep_eq_accum (thr : ℚ) (l kept : List Detection) (fuel : ℕ)
    (hlen : l.length ≤ fuel) :
    nmsKeep thr fuel (l.filter fun j => kept.all fun k => nmsOk thr k j)
      = nmsAccum thr kept l := by
  induction l generalizing kept fuel with
  | nil => cases fuel <;> simp [nmsKeep, nmsAccum]
  | cons d rest ih =>
    by_cases hd : kept.all (fun k => nmsOk thr k d) = true
    · simp only [List.filter_cons]
      rw [if_pos hd]
      cases fuel with
      | zero => simp at hlen
      | succ fuel =>
        rw [nmsKeep, nmsAccum, if_pos hd]
        congr 1
        rw [suppressFilter, List.filter_filter]
        have harg : (fun j => nmsOk thr d j && kept.all fun k => nmsOk thr k j)
            = fun j => (d :: kept).all fun k => nmsOk thr k j := by
          funext j
          simp [List.all_cons]
        rw [harg]
        exact ih (d :: kept) fuel (Nat.le_of_succ_le_succ hlen)
    · simp only [List.filter_cons]
      rw [if_neg hd, nmsAccum, if_neg hd]
      exact ih kept fuel (le_trans (Nat.le_succ _) hlen)

/-- C5: `YoloDetector::nms` is the greedy same-class suppressor the
specification describes: the candidates are sorted by confidence descending
(a sorted permutation of the input); the result equals the reference greedy
algorithm that keeps a detection exactly when no previously-kept detection of
the same class overlaps it with IoU above the threshold; any two kept
detections of the same class have IoU at most the threshold; and the IoU of
two boxes whose union area is zero is zero. -/
theorem nms_greedy_spec (l : List Detection) (thr : ℚ) :
    (sortByConf l).Perm l ∧
    List.Pairwise confGe (sortByConf l) ∧
    nms l thr = nmsAccum thr [] (sortByConf l) ∧
    List.Pairwise (compat thr) (nms l thr) ∧
    (∀ a b : Detection, unionArea a b = 0 → iou a b = 0) := by
  refine ⟨sortByConf_perm l, sortByConf_sorted l, ?_, nmsKeep_pairwise thr _ _, ?_⟩
  · have h := nmsKeep_eq_accum thr (sortByConf l) [] (sortByConf l).length le_rfl
    rwa [show (fun j => List.all [] fun k => nmsOk thr k j) = fun j => true from rfl,
      List.filter_true] at h
  · intro a b h
    rw [iou, h]
    simp

/-- Witness for C5 at a concrete degenerate box: the IoU of the zero-area
point box with itself is zero. -/
theorem nms_greedy_spec_witness : iou dPoint dPoint = 0 :=
  (nms_greedy_spec [] 0).2.2.2.2 dPoint dPoint (by with_unfolding_all rfl)

/-- C6: non-maximum suppression is idempotent — running
`YoloDetector::nms` on its own output returns that output unchanged. -/
theorem nms_idempotent (l : List Detection) (thr : ℚ) :
    nms (nms l thr) thr = nms l thr := by
  have hsub : (nms l thr).Sublist (sortByConf l) := nmsKeep_sublist thr _ _
  have hsorted : List.Pairwise confGe (nms l thr) :=
    List.Pairwise.sublist hsub (sortByConf_sorted l)
  have hpair : List.Pairwise (compat thr) (nms l thr) := nmsKeep_pairwise thr _ _
  show nmsKeep thr (sortByConf (nms l thr)).length (sortByConf (nms l thr)) = nms l thr
  rw [sortByConf_eq_of_sorted hsorted]
  exact nmsKeep_eq_of_pairwise thr _ _ le_rfl hpair

theorem clampQ_nonneg (v hi : ℚ) : 0 ≤ clampQ v hi :=
  le_max_left 0 _

theorem clampQ_le (v : ℚ) {hi : ℚ} (h : 0 ≤ hi) : clampQ v hi ≤ hi :=
  max_le h (min_le_right v hi)

theorem clampQ_mono {v w : ℚ} (hi : ℚ) (h : v ≤ w) : clampQ v hi ≤ clampQ w hi :=
  max_le_max le_rfl (min_le_min_right hi h)

theorem ppyoloeRow_bounds {names : List String} {out : ℕ → ℚ} {W H : ℕ} {conf : ℚ}
    {i : ℕ} {d : Detection} (h : ppyoloeRow names out W H conf i = some d) :
    detInBounds W H conf d := by
  simp only [ppyoloeRow] at h
  split_ifs at h with h1 h2 <;> try exact Option.noConfusion h
  · simp only [Option.some.injEq] at h
    subst h
    exact ⟨clampQ_nonneg _ _, clampQ_le _ (Nat.cast_nonneg W),
      clampQ_nonneg _ _, clampQ_le _ (Nat.cast_nonneg H),
      clampQ_nonneg _ _, clampQ_le _ (Nat.cast_nonneg W),
      clampQ_nonneg _ _, clampQ_le _ (Nat.cast_nonneg H),
      not_lt.mp h1⟩

theorem yoloxBox_bounds {names : List String} {numClasses : ℕ}
    {grids : List (ℕ × ℕ × ℕ)} {out : ℕ → ℚ} {features : ℕ} {W H : ℕ}
    {scale : ℚ} {pad_x pad_y : ℤ} {conf : ℚ} {e : ℚ → ℚ} {i : ℕ} {d : Detection}
    (hscale : 0 < scale) (he : ∀ q, 0 < e q)
    (h : yoloxBox names numClasses grids out features W H scale pad_x pad_y conf e i
      = some d) :
    detInBounds W H conf d ∧ d.x1 ≤ d.x2 ∧ d.y1 ≤ d.y2 := by
  simp only [yoloxBox] at h
  split_ifs at h with h1 h2 <;> try exact Option.noConfusion h
  · simp only [Option.some.injEq] at h
    subst h
    have hw : 0 ≤ e (out (i * features + 2)) * ((grids.getD i (0, 0, 0)).2.2 : ℚ) :=
      mul_nonneg (le_of_lt (he _)) (Nat.cast_nonneg _)
    have hh : 0 ≤ e (out (i * features + 3)) * ((grids.getD i (0, 0, 0)).2.2 : ℚ) :=
      mul_nonneg (le_of_lt (he _)) (Nat.cast_nonneg _)
    refine ⟨⟨clampQ_nonneg _ _, clampQ_le _ (Nat.cast_nonneg W),
      clampQ_nonneg _ _, clampQ_le _ (Nat.cast_nonneg H),
      clampQ_nonneg _ _, clampQ_le _ (Nat.cast_nonneg W),
      clampQ_nonneg _ _, clampQ_le _ (Nat.cast_nonneg H),
      not_lt.mp h2⟩, ?_, ?_⟩
    · exact clampQ_mono _ (div_le_div_of_nonneg_right (by linarith) hscale.le)
    · exact clampQ_mono _ (div_le_div_of_nonneg_right (by linarith) hscale.le)

theorem yolov8Box_bounds {names : List String} {out : ℕ → ℚ} {transposed : Bool}
    {numBoxes features : ℕ} {W H : ℕ} {scale : ℚ} {pad_x pad_y : ℤ} {conf : ℚ}
    {i : ℕ} {d : Detection}
    (h : yolov8Box names out transposed numBoxes features W H scale pad_x pad_y conf i
      = some d) :
    detInBounds W H conf d := by
  simp only [yolov8Box] at h
  split_ifs at h <;> try exact Option.noConfusion h
  all_goals
    simp only [Option.some.injEq] at h
    subst h
    exact ⟨clampQ_nonneg _ _, clampQ_le _ (Nat.cast_nonneg W),
      clampQ_nonneg _ _, clampQ_le _ (Nat.cast_nonneg H),
      clampQ_nonneg _ _, clampQ_le _ (Nat.cast_nonneg W),
      clampQ_nonneg _ _, clampQ_le _ (Nat.cast_nonneg H),
      not_lt.mp (by assumption)⟩

/-- C1 (amended): every detection emitted by `YoloDetector::postprocess` has
each coordinate clamped into `[0, image_width]` / `[0, image_height]` and
confidence at least the confidence threshold; for the grid-objectness
(`YOLOX`) variant additionally `x1 ≤ x2` and `y1 ≤ y2` (positive scale,
positive exponential).  The pre-decoded and anchor-free variants pass raw
tensor values through, so neither `confidence ≤ 1` nor the box ordering is
guaranteed for them — see the counterexample. -/
theorem postprocess_clamped (det : YoloDetector) (e : ℚ → ℚ) (out : ℕ → ℚ)
    (shape : List ℤ) (count : ℕ) (W H : ℕ) (scale : ℚ) (pad_x pad_y : ℤ)
    (conf iouT : ℚ) (hscale : 0 < scale) (he : ∀ q, 0 < e q) :
    ∀ d ∈ postprocess det e out shape count W H scale pad_x pad_y conf iouT,
      detInBounds W H conf d ∧
      (det.m_model_type = ModelType.YOLOX → d.x1 ≤ d.x2 ∧ d.y1 ≤ d.y2) := by
  intro d hd
  rw [postprocess] at hd
  cases hpd : postDims shape count with
  | none => rw [hpd] at hd; simp at hd
  | some dims =>
    obtain ⟨dim1, dim2⟩ := dims
    rw [hpd] at hd
    cases hmt : det.m_model_type with
    | PPYOLOE =>
      rw [hmt] at hd
      simp only [ppyoloeBranch] at hd
      split_ifs at hd with hnd
      · simp at hd
      · rcases List.mem_filterMap.mp hd with ⟨i, _, hrow⟩
        exact ⟨ppyoloeRow_bounds hrow,
          fun hx => ModelType.noConfusion hx⟩
    | YOLOX =>
      rw [hmt] at hd
      rcases List.mem_filterMap.mp (nms_mem hd) with ⟨i, _, hbox⟩
      have hb := yoloxBox_bounds hscale he hbox
      exact ⟨hb.1, fun _ => hb.2⟩
    | YOLOV8 =>
      rw [hmt] at hd
      rcases List.mem_filterMap.mp (nms_mem hd) with ⟨i, _, hbox⟩
      exact ⟨yolov8Box_bounds hbox,
        fun hx => ModelType.noConfusion hx⟩

/-- Witness for C1 at a concrete pre-decoded call: the single emitted
detection of a well-formed row is clamped and at or above the threshold. -/
theorem postprocess_clamped_witness :
    detInBounds 10 10 1
      { class_id := 0, class_name := "person", confidence := 1,
        x1 := 2, y1 := 3, x2 := 4, y2 := 5 } :=
  (postprocess_clamped ppDet (fun _ => 1) ppOutGood [1, 1, 6] 6 10 10 1 0 0 1 1
    one_pos (fun _ => one_pos)
    { class_id := 0, class_name := "person", confidence := 1,
      x1 := 2, y1 := 3, x2 := 4, y2 := 5 }
    (by with_unfolding_all decide)).1

/-- Counterexample to C1 as stated: a pre-decoded row with stored score `2`
and stored `x1 = 5 > 3 = x2` is emitted verbatim (confidence `2 > 1`,
`x1 > x2`), and an anchor-free box with negative stored width is emitted with
`x1 > x2`. -/
theorem postprocess_clamped_counterexample :
    ¬ (∀ d ∈ postprocess ppDet (fun _ => 1) ppOutBad [1, 1, 6] 6 10 10 1 0 0 1 1,
        d.confidence ≤ 1 ∧ d.x1 ≤ d.x2) ∧
    ¬ (∀ d ∈ postprocess v8Det (fun _ => 1) v8Out [1, 6, 5] 30 10 10 1 0 0 1 1,
        d.x1 ≤ d.x2) := by
  constructor <;> with_unfolding_all decide

/-- C3 (amended): the pre-decoded decoder uses the detected layout only to
fix the number of rows; every row is read as six consecutive tensor elements.
For the row-major shapes `[1, N, 6]` and `[N, 6]` the decode therefore equals
the layout-aware reference decode, and even for the transposed `[1, 6, N]`
shape the decode equals the row-major reference reading (not the transposed
one).  A row is skipped exactly when its score is below the confidence
threshold or its class id is negative. -/
theorem ppyoloe_rowmajor (det : YoloDetector) (e : ℚ → ℚ) (out : ℕ → ℚ) (N : ℤ)
    (count W H : ℕ) (scale : ℚ) (pad_x pad_y : ℤ) (conf iouT : ℚ)
    (hmt : det.m_model_type = ModelType.PPYOLOE) (hN : 0 < N) :
    postprocess det e out [1, N, 6] count W H scale pad_x pad_y conf iouT
      = specPpyoloeDecode det.m_class_names out false N.toNat W H conf ∧
    postprocess det e out [N, 6] count W H scale pad_x pad_y conf iouT
      = specPpyoloeDecode det.m_class_names out false N.toNat W H conf ∧
    postprocess det e out [1, 6, N] count W H scale pad_x pad_y conf iouT
      = specPpyoloeDecode det.m_class_names out false N.toNat W H conf ∧
    (∀ i, ppyoloeRow det.m_class_names out W H conf i = none ↔
      (out (i * 6 + 1) < conf ∨ ratTrunc (out (i * 6)) < 0)) := by
  refine ⟨?_, ?_, ?_, ?_⟩
  · rcases eq_or_ne N 6 with rfl | h6
    · simp only [postprocess, postDims, hmt, ppyoloeBranch, ppyoloeCount,
        specPpyoloeDecode, specPpyoloeField]
      norm_num
      rfl
    · simp only [postprocess, postDims, hmt, ppyoloeBranch, ppyoloeCount,
        specPpyoloeDecode, specPpyoloeField]
      norm_num [h6, hN, hN.not_le]
      rfl
  · simp only [postprocess, postDims, hmt, ppyoloeBranch, ppyoloeCount,
      specPpyoloeDecode, specPpyoloeField]
    norm_num [hN, hN.not_le]
    rfl
  · simp only [postprocess, postDims, hmt, ppyoloeBranch, ppyoloeCount,
      specPpyoloeDecode, specPpyoloeField]
    norm_num [hN, hN.not_le]
    rfl
  · intro i
    simp only [ppyoloeRow]
    split_ifs with h1 h2
    · simp [h1]
    · simp [h2]
    · simp [h1, h2]

/-- Witness for C3 at a concrete row-major call: the decode of a single
well-formed row equals the layout-aware reference decode. -/
theorem ppyoloe_rowmajor_witness :
    postprocess ppDet (fun _ => 1) ppOutGood [1, 1, 6] 6 10 10 1 0 0 1 1
      = specPpyoloeDecode ppDet.m_class_names ppOutGood false (1 : ℤ).toNat 10 10 1 :=
  (ppyoloe_rowmajor ppDet (fun _ => 1) ppOutGood 1 6 10 10 1 0 0 1 1 rfl one_pos).1

/-- Counterexample to C3 as stated: on a transposed `[1, 6, 2]` tensor the
code reads consecutive six-element rows, emitting one detection of class `20`
with confidence `20`, while reading the fields under the detected transposed
layout would emit two detections of class `0` with confidence `1`. -/
theorem ppyoloe_rowmajor_counterexample :
    postprocess ppDet (fun _ => 1) trOut [1, 6, 2] 12 100 100 1 0 0 1 1
      = [{ class_id := 20, class_name := "class_20", confidence := 20,
           x1 := 30, y1 := 30, x2 := 40, y2 := 40 }] ∧
    specPpyoloeDecode ["person"] trOut true 2 100 100 1
      = [{ class_id := 0, class_name := "person", confidence := 1,
           x1 := 10, y1 := 20, x2 := 30, y2 := 40 },
         { class_id := 0, class_name := "person", confidence := 1,
           x1 := 10, y1 := 20, x2 := 30, y2 := 40 }] ∧
    postprocess ppDet (fun _ => 1) trOut [1, 6, 2] 12 100 100 1 0 0 1 1
      ≠ specPpyoloeDecode ["person"] trOut true 2 100 100 1 := by
  refine ⟨?_, ?_, ?_⟩ <;> with_unfolding_all decide

/-- C4 (amended): `YoloDetector::init` classification.  A scale-named input
forces pre-decoded with 80 classes.  Otherwise a single output shape
`[1, d1, d2]` is classified by the decision table: either dimension 6 gives
pre-decoded, either 85 gives grid-objectness with 80 classes, either 84 gives
anchor-free with 80 classes, a feature count `f = min d1 d2 > 5` gives
grid-objectness with `f - 5` classes, `0 < f ≤ 5` gives anchor-free with
`f - 4` classes, and a non-positive `f` leaves the constructor default
(grid-objectness, 80) unchanged.  Whenever `f` is positive the code table
agrees with the specification's table; the three example shapes classify as
the specification states. -/
theorem classify_table :
    (∀ (inputNames : List String) (outputShapes : List (List ℤ)),
       inputNames.any nameHasScale = true →
       classifyModel inputNames outputShapes = (ModelType.PPYOLOE, 80)) ∧
    (∀ d1 d2 : ℤ, classifyModel [] [[1, d1, d2]]
       = codeVariantTable (ModelType.YOLOX, 80) d1 d2) ∧
    (∀ d1 d2 : ℤ, 0 < min d1 d2 →
       codeVariantTable (ModelType.YOLOX, 80) d1 d2 = claimVariantTable d1 d2) ∧
    classifyModel [] [[1, 8400, 85]] = (ModelType.YOLOX, 80) ∧
    classifyModel [] [[1, 84, 8400]] = (ModelType.YOLOV8, 80) ∧
    classifyModel [] [[1, 300, 6]] = (ModelType.PPYOLOE, 80) := by
  refine ⟨?_, ?_, ?_, by decide, by decide, by decide⟩
  · intro inputNames outputShapes h
    rw [classifyModel, if_pos h]
  · intro d1 d2
    simp only [classifyModel, List.any_nil, Bool.false_eq_true, if_false,
      List.foldl_cons, List.foldl_nil, classifyStep, codeVariantTable,
      List.getD, List.get?, List.length_cons, List.length_nil]
    norm_num
    split_ifs <;> first | rfl | tauto
  · intro d1 d2 h
    simp only [codeVariantTable, claimVariantTable]
    split_ifs <;> first | rfl | tauto | omega

/-- Witness for C4: a model whose input names contain a scale tensor is
classified pre-decoded with 80 classes. -/
theorem classify_table_witness :
    classifyModel ["im_shape", "scale_factor"] [[1, 640, 640]] = (ModelType.PPYOLOE, 80) :=
  classify_table.1 ["im_shape", "scale_factor"] [[1, 640, 640]] (by decide)

/-- Counterexample to C4 as stated: a dynamic output shape `[1, -1, 3]` has
feature count `min (-1) 3 = -1 ≤ 5`, so the specification's table demands
anchor-free with `-1 - 4 = -5` classes, but the code leaves the constructor
default (grid-objectness, 80 classes) in place. -/
theorem classify_table_counterexample :
    classifyModel [] [[1, -1, 3]] = (ModelType.YOLOX, 80) ∧
    claimVariantTable (-1) 3 = (ModelType.YOLOV8, -5) ∧
    classifyModel [] [[1, -1, 3]] ≠ claimVariantTable (-1) 3 := by
  decide

/-- C2 (amended): the raw-buffer and YUV entry points perform no validation
of width, height or strides: the only fast-fail error is `NOT_INITIALIZED`,
and once initialized the call proceeds into the pixel pipeline for every
argument combination; no `InvalidBuffer` error exists in the code. -/
theorem buffer_entry_no_validation :
    ∀ (initialized : Bool) (width height stride yrs uvrs uvps rot : ℤ),
      detectFromBufferEntry initialized width height stride
        = (if initialized then EntryOutcome.proceed
           else EntryOutcome.error ErrCode.NOT_INITIALIZED) ∧
      detectFromBufferEntry initialized width height stride
        ≠ EntryOutcome.error ErrCode.INVALID_BUFFER ∧
      detectFromYUVEntry initialized width height yrs uvrs uvps rot
        = (if initialized then EntryOutcome.proceed
           else EntryOutcome.error ErrCode.NOT_INITIALIZED) ∧
      detectFromYUVEntry initialized width height yrs uvrs uvps rot
        ≠ EntryOutcome.error ErrCode.INVALID_BUFFER := by
  intro initialized width height stride yrs uvrs uvps rot
  cases initialized <;>
    exact ⟨rfl, by simp [detectFromBufferEntry], rfl, by simp [detectFromYUVEntry]⟩

/-- Witness for C2 at a concrete well-formed call: an initialized detector
proceeds into the pipeline. -/
theorem buffer_entry_no_validation_witness :
    detectFromBufferEntry true 640 480 2560 = EntryOutcome.proceed :=
  (buffer_entry_no_validation true 640 480 2560 0 0 0 0).1

/-- Counterexample to C2 as stated: a call with negative width and height and
an undersized stride on an initialized detector proceeds into the pipeline
instead of failing with `InvalidBuffer`. -/
theorem buffer_entry_counterexample :
    detectFromBufferEntry true (-1) (-1) (-100) = EntryOutcome.proceed ∧
    detectFromYUVEntry true (-1) (-1) (-1) (-1) 2 0 = EntryOutcome.proceed ∧
    EntryOutcome.proceed ≠ EntryOutcome.error ErrCode.INVALID_BUFFER := by
  decide

theorem range_flatMap_raster (n s m : ℕ) :
    (List.range m).flatMap (fun gy => (List.range n).map fun gx => (gx, gy, s))
      = (List.range (m * n)).map fun i => (i % n, i / n, s) := by
  rcases Nat.eq_zero_or_pos n with rfl | hn
  · simp
  · induction m with
    | zero => simp
    | succ m ih =>
      rw [List.range_succ, List.flatMap_append, ih, Nat.succ_mul, List.range_add,
        List.map_append]
      congr 1
      · simp only [List.flatMap_cons, List.flatMap_nil, List.append_nil, List.map_map]
        apply List.map_congr_left
        intro j hj
        have hjn : j < n := List.mem_range.mp hj
        simp only [Function.comp]
        rw [Nat.mul_comm m n, Nat.mul_add_mod, Nat.mod_eq_of_lt hjn,
          Nat.mul_add_div hn, Nat.div_eq_of_lt hjn, Nat.add_zero]

/-- C7 (amended): the precomputed grid list tiles the strides `8, 16, 32` in
that order, each as a raster-scanned square of side `input_width / stride`
(cell `i` of a block is `(i % n, i / n, stride)`); the list length is
`(w/8)² + (w/16)² + (w/32)²`, and whenever the output shape's box count
equals this sum (as it does for standard models, e.g. `8400` at width `640`),
every per-box lookup index below the box count is within bounds.  The length
is not checked against the reported box count — see the counterexample. -/
theorem gridTriples_raster (w : ℕ) :
    gridTriples w
      = rasterBlock (w / 8) 8 ++ rasterBlock (w / 16) 16 ++ rasterBlock (w / 32) 32 ∧
    (gridTriples w).length = (w / 8) ^ 2 + (w / 16) ^ 2 + (w / 32) ^ 2 ∧
    (∀ num_boxes : ℕ,
      num_boxes = (w / 8) ^ 2 + (w / 16) ^ 2 + (w / 32) ^ 2 →
      ∀ i < num_boxes, i < (gridTriples w).length) := by
  have hblocks : gridTriples w
      = rasterBlock (w / 8) 8 ++ rasterBlock (w / 16) 16 ++ rasterBlock (w / 32) 32 := by
    simp only [gridTriples, List.flatMap_cons, List.flatMap_nil, List.append_nil,
      range_flatMap_raster, rasterBlock, List.append_assoc]
  have hlen : (gridTriples w).length
      = (w / 8) ^ 2 + (w / 16) ^ 2 + (w / 32) ^ 2 := by
    rw [hblocks]
    simp [rasterBlock, pow_two]
    omega
  exact ⟨hblocks, hlen, fun nb hnb i hi => by rw [hlen]; omega⟩

/-- Witness for C7 at width `64`: the grid list has `64 + 16 + 4 = 84`
entries and box index `10` of an 84-box output is in bounds. -/
theorem gridTriples_raster_witness : 10 < (gridTriples 64).length :=
  (gridTriples_raster 64).2.2 84 (by decide) 10 (by decide)

/-- Counterexample to C7 as stated: with input width `64` the grid list has
`84` entries, but an output shape `[1, 100, 85]` reports `num_boxes = 100`,
so the claimed length equality fails (and lookups at indexes `84..99` fall
outside the list). -/
theorem gridTriples_raster_counterexample :
    postDims [1, 100, 85] 8500 = some (100, 85) ∧
    (gridTriples 64).length = 84 ∧
    (gridTriples 64).length ≠ 100 := by
  refine ⟨by decide, by decide, by decide⟩

theorem ratTrunc_eq_floor {q : ℚ} (h : 0 ≤ q) : ratTrunc q = ⌊q⌋ := by
  rw [ratTrunc, Int.tdiv_eq_ediv (Rat.num_nonneg.mpr h) (Int.natCast_nonneg _)]
  exact (Rat.floor_def (q := q)).symm

theorem ratTrunc_nonneg {q : ℚ} (h : 0 ≤ q) : 0 ≤ ratTrunc q := by
  rw [ratTrunc_eq_floor h]
  exact Int.le_floor.mpr (by exact_mod_cast h)

theorem ratTrunc_cast_le {q : ℚ} (h : 0 ≤ q) : (ratTrunc q : ℚ) ≤ q := by
  rw [ratTrunc_eq_floor h]
  exact Int.floor_le q

theorem letterboxScale_nonneg (iw ih w h : ℕ) : 0 ≤ letterboxScale iw ih w h :=
  le_min (div_nonneg (Nat.cast_nonneg _) (Nat.cast_nonneg _))
    (div_nonneg (Nat.cast_nonneg _) (Nat.cast_nonneg _))

theorem letterboxNewW_le {iw ih w h : ℕ} (hw : 0 < w) :
    letterboxNewW iw ih w h ≤ (iw : ℤ) := by
  have h0 : 0 ≤ (w : ℚ) * letterboxScale iw ih w h :=
    mul_nonneg (Nat.cast_nonneg _) (letterboxScale_nonneg iw ih w h)
  have hle : (w : ℚ) * letterboxScale iw ih w h ≤ (iw : ℚ) := by
    calc (w : ℚ) * letterboxScale iw ih w h
        ≤ (w : ℚ) * ((iw : ℚ) / (w : ℚ)) :=
          mul_le_mul_of_nonneg_left (min_le_left _ _) (Nat.cast_nonneg _)
      _ = (iw : ℚ) := mul_div_cancel₀ _ (by positivity)
  have := (ratTrunc_cast_le h0).trans hle
  exact_mod_cast this

theorem letterboxNewH_le {iw ih w h : ℕ} (hh : 0 < h) :
    letterboxNewH iw ih w h ≤ (ih : ℤ) := by
  have h0 : 0 ≤ (h : ℚ) * letterboxScale iw ih w h :=
    mul_nonneg (Nat.cast_nonneg _) (letterboxScale_nonneg iw ih w h)
  have hle : (h : ℚ) * letterboxScale iw ih w h ≤ (ih : ℚ) := by
    calc (h : ℚ) * letterboxScale iw ih w h
        ≤ (h : ℚ) * ((ih : ℚ) / (h : ℚ)) :=
          mul_le_mul_of_nonneg_left (min_le_right _ _) (Nat.cast_nonneg _)
      _ = (ih : ℚ) := mul_div_cancel₀ _ (by positivity)
  have := (ratTrunc_cast_le h0).trans hle
  exact_mod_cast this

theorem tdiv_two_half {m : ℤ} (hm : 0 ≤ m) :
    0 ≤ m.tdiv 2 ∧ 2 * m.tdiv 2 ≤ m ∧ m ≤ 2 * m.tdiv 2 + 1 := by
  rw [Int.tdiv_eq_ediv hm (by norm_num)]
  have hdm := Int.ediv_add_emod m 2
  have h0 : 0 ≤ m % 2 := Int.emod_nonneg m (by norm_num)
  have h2 : m % 2 < 2 := Int.emod_lt_of_pos m (by norm_num)
  refine ⟨Int.ediv_nonneg hm (by norm_num), by omega, by omega⟩

/-- C8: the transform descriptor of `YoloDetector::preprocess`.  The
pre-decoded variant resizes directly and records `(scale, pad_x, pad_y) =
(1, 0, 0)`.  The letterbox variants record
`scale = min(input_w / src_w, input_h / src_h)`; each pad is half the
leftover margin rounded down (so twice the pad never exceeds the margin and
misses it by at most one); and the canvas equals the aspect-preserving resize
inside the rectangle at `(pad_x, pad_y)` and the constant `(114, 114, 114)`
pixel outside it. -/
theorem preprocess_descriptor (mt : ModelType) (iw ih w h : ℕ)
    (resized : ℕ → ℕ → Pix) (hw : 0 < w) (hh : 0 < h) :
    (mt = ModelType.PPYOLOE →
      preprocessParams mt iw ih w h = (1, 0, 0) ∧
      ∀ x y : ℤ, preprocessCanvas mt iw ih w h resized x y = resized x.toNat y.toNat) ∧
    (mt ≠ ModelType.PPYOLOE →
      (preprocessParams mt iw ih w h).1 = min ((iw : ℚ) / (w : ℚ)) ((ih : ℚ) / (h : ℚ)) ∧
      letterboxNewW iw ih w h ≤ (iw : ℤ) ∧
      letterboxNewH iw ih w h ≤ (ih : ℤ) ∧
      (0 ≤ (preprocessParams mt iw ih w h).2.1 ∧
        2 * (preprocessParams mt iw ih w h).2.1 ≤ (iw : ℤ) - letterboxNewW iw ih w h ∧
        (iw : ℤ) - letterboxNewW iw ih w h ≤ 2 * (preprocessParams mt iw ih w h).2.1 + 1) ∧
      (0 ≤ (preprocessParams mt iw ih w h).2.2 ∧
        2 * (preprocessParams mt iw ih w h).2.2 ≤ (ih : ℤ) - letterboxNewH iw ih w h ∧
        (ih : ℤ) - letterboxNewH iw ih w h ≤ 2 * (preprocessParams mt iw ih w h).2.2 + 1) ∧
      (∀ x y : ℤ,
        ((preprocessParams mt iw ih w h).2.1 ≤ x ∧
          x < (preprocessParams mt iw ih w h).2.1 + letterboxNewW iw ih w h ∧
          (preprocessParams mt iw ih w h).2.2 ≤ y ∧
          y < (preprocessParams mt iw ih w h).2.2 + letterboxNewH iw ih w h) →
          preprocessCanvas mt iw ih w h resized x y
            = resized (x - (preprocessParams mt iw ih w h).2.1).toNat
                (y - (preprocessParams mt iw ih w h).2.2).toNat) ∧
      (∀ x y : ℤ,
        ¬((preprocessParams mt iw ih w h).2.1 ≤ x ∧
          x < (preprocessParams mt iw ih w h).2.1 + letterboxNewW iw ih w h ∧
          (preprocessParams mt iw ih w h).2.2 ≤ y ∧
          y < (preprocessParams mt iw ih w h).2.2 + letterboxNewH iw ih w h) →
          preprocessCanvas mt iw ih w h resized x y = ⟨114, 114, 114⟩)) := by
  constructor
  · intro hmt
    subst hmt
    exact ⟨by simp [preprocessParams], fun x y => by simp [preprocessCanvas]⟩
  · intro hmt
    have hW : letterboxNewW iw ih w h ≤ (iw : ℤ) := letterboxNewW_le hw
    have hH : letterboxNewH iw ih w h ≤ (ih : ℤ) := letterboxNewH_le hh
    have hpx := tdiv_two_half (sub_nonneg.mpr hW)
    have hpy := tdiv_two_half (sub_nonneg.mpr hH)
    refine ⟨by simp [preprocessParams, hmt, letterboxScale], hW, hH, ?_, ?_, ?_, ?_⟩
    · simpa [preprocessParams, hmt] using hpx
    · simpa [preprocessParams, hmt] using hpy
    · intro x y hin
      simp only [preprocessCanvas, if_neg hmt]
      rw [if_pos hin]
    · intro x y hout
      simp only [preprocessCanvas, if_neg hmt]
      rw [if_neg hout]

/-- Witness for C8 at a concrete letterbox call (`640×640` input, `320×320`
source): the recorded horizontal pad is non-negative. -/
theorem preprocess_descriptor_witness :
    0 ≤ (preprocessParams ModelType.YOLOX 640 640 320 320).2.1 :=
  ((preprocess_descriptor ModelType.YOLOX 640 640 320 320 (fun x y => ⟨0, 0, 0⟩)
    (by decide) (by decide)).2 (by decide)).2.2.2.1.1

theorem flatIndex_decode {iw ih x y : ℕ} (c : ℕ) (hx : x < iw) (hy : y < ih) :
    (c * (ih * iw) + y * iw + x) / (ih * iw) = c ∧
    ((c * (ih * iw) + y * iw + x) % (ih * iw)) / iw = y ∧
    ((c * (ih * iw) + y * iw + x) % (ih * iw)) % iw = x := by
  have hiw : 0 < iw := lt_of_le_of_lt (Nat.zero_le x) hx
  have hih : 0 < ih := lt_of_le_of_lt (Nat.zero_le y) hy
  have hcs : 0 < ih * iw := Nat.mul_pos hih hiw
  have hr : y * iw + x < ih * iw := by
    calc y * iw + x < y * iw + iw := by omega
      _ = (y + 1) * iw := by ring
      _ ≤ ih * iw := Nat.mul_le_mul_right iw hy
  refine ⟨?_, ?_, ?_⟩
  · rw [Nat.add_assoc, Nat.mul_comm c (ih * iw), Nat.mul_add_div hcs,
      Nat.div_eq_of_lt hr, Nat.add_zero]
  · rw [Nat.add_assoc, Nat.mul_comm c (ih * iw), Nat.mul_add_mod,
      Nat.mod_eq_of_lt hr, Nat.mul_comm y iw, Nat.mul_add_div hiw,
      Nat.div_eq_of_lt hx, Nat.add_zero]
  · rw [Nat.add_assoc, Nat.mul_comm c (ih * iw), Nat.mul_add_mod,
      Nat.mod_eq_of_lt hr, Nat.mul_comm y iw, Nat.mul_add_mod, Nat.mod_eq_of_lt hx]

/-- C9: the serialized input tensor is channel-major — the value at flat
index `c * (input_h * input_w) + y * input_w + x` is channel `c` of pixel
`(x, y)` — and the per-variant channel policy holds: grid-objectness
(`YOLOX`) writes raw BGR bytes in `[0, 255]`, the other variants write RGB
divided by 255 in `[0, 1]`. -/
theorem input_tensor_policy (mt : ModelType) (iw ih : ℕ) (canvas : ℕ → ℕ → Pix)
    (c x y : ℕ) (hx : x < iw) (hy : y < ih)
    (hpix : ∀ u v, (canvas u v).b ≤ 255 ∧ (canvas u v).g ≤ 255 ∧ (canvas u v).r ≤ 255) :
    inputTensor mt iw ih canvas (c * (ih * iw) + y * iw + x)
      = tensorValue mt (canvas x y) c ∧
    (mt = ModelType.YOLOX →
      tensorValue mt (canvas x y) 0 = ((canvas x y).b : ℚ) ∧
      tensorValue mt (canvas x y) 1 = ((canvas x y).g : ℚ) ∧
      tensorValue mt (canvas x y) 2 = ((canvas x y).r : ℚ) ∧
      0 ≤ tensorValue mt (canvas x y) c ∧ tensorValue mt (canvas x y) c ≤ 255) ∧
    (mt ≠ ModelType.YOLOX →
      tensorValue mt (canvas x y) 0 = ((canvas x y).r : ℚ) / 255 ∧
      tensorValue mt (canvas x y) 1 = ((canvas x y).g : ℚ) / 255 ∧
      tensorValue mt (canvas x y) 2 = ((canvas x y).b : ℚ) / 255 ∧
      0 ≤ tensorValue mt (canvas x y) c ∧ tensorValue mt (canvas x y) c ≤ 1) := by
  obtain ⟨hdiv, hmoddiv, hmodmod⟩ := flatIndex_decode c hx hy
  refine ⟨?_, ?_, ?_⟩
  · simp only [inputTensor, hdiv, hmoddiv, hmodmod]
  · intro hmt
    subst hmt
    refine ⟨by simp [tensorValue], by simp [tensorValue], by simp [tensorValue], ?_, ?_⟩
    · simp only [tensorValue, if_pos rfl]
      split_ifs <;> exact Nat.cast_nonneg _
    · simp only [tensorValue, if_pos rfl]
      rcases hpix x y with ⟨hb, hg, hr2⟩
      split_ifs <;> exact_mod_cast by omega
  · intro hmt
    refine ⟨by simp [tensorValue, hmt], by simp [tensorValue, hmt],
      by simp [tensorValue, hmt], ?_, ?_⟩
    · simp only [tensorValue, if_neg hmt]
      split_ifs <;> positivity
    · simp only [tensorValue, if_neg hmt]
      rcases hpix x y with ⟨hb, hg, hr2⟩
      split_ifs <;>
        exact div_le_one_of_le₀ (by exact_mod_cast by omega) (by norm_num)

/-- Witness for C9: channel 0 of pixel `(0, 0)` of a constant `(1, 2, 3)`
BGR canvas lands at flat index 0 with the variant policy applied. -/
theorem input_tensor_policy_witness :
    inputTensor ModelType.YOLOV8 2 2 (fun u v => ⟨1, 2, 3⟩) (0 * (2 * 2) + 0 * 2 + 0)
      = tensorValue ModelType.YOLOV8 ((fun (u v : ℕ) => (⟨1, 2, 3⟩ : Pix)) 0 0) 0 :=
  (input_tensor_policy ModelType.YOLOV8 2 2 (fun u v => ⟨1, 2, 3⟩) 0 0 0
    (by decide) (by decide) (by intro u v; refine ⟨?_, ?_, ?_⟩ <;> norm_num)).1

theorem bestClass_foldl_congr (l : List ℕ) (init : ℚ × ℕ) (f g : ℕ → ℚ)
    (hfg : ∀ c ∈ l, f c = g c) :
    l.foldl (fun acc c => if acc.1 < f c then (f c, c) else acc) init
      = l.foldl (fun acc c => if acc.1 < g c then (g c, c) else acc) init := by
  induction l generalizing init with
  | nil => rfl
  | cons a as ih =>
    rw [List.foldl_cons, List.foldl_cons, hfg a (List.mem_cons_self a as)]
    exact ih _ fun c hc => hfg c (List.mem_cons_of_mem a hc)

/-- C10: applying the set-class-names entry point with a non-empty list of
length `n` replaces the class-name table, overwrites the class count with
`n`, leaves every other detector field unchanged, and the grid-objectness
best-class scan of the updated detector runs over exactly `n` class scores
(it is insensitive to score values at or beyond index `n`). -/
theorem setClassNames_effect (det : YoloDetector) (names : List String)
    (hne : names ≠ []) :
    (yoloSetClasses det names).m_class_names = names ∧
    (yoloSetClasses det names).m_num_classes = (names.length : ℤ) ∧
    (yoloSetClasses det names).m_initialized = det.m_initialized ∧
    (yoloSetClasses det names).m_input_width = det.m_input_width ∧
    (yoloSetClasses det names).m_input_height = det.m_input_height ∧
    (yoloSetClasses det names).m_model_type = det.m_model_type ∧
    (∀ score : ℕ → ℚ,
      bestClass (yoloSetClasses det names).m_num_classes.toNat score
        = bestClass names.length score) ∧
    (∀ score score2 : ℕ → ℚ, (∀ c < names.length, score c = score2 c) →
      bestClass (yoloSetClasses det names).m_num_classes.toNat score
        = bestClass names.length score2) := by
  have hemp : names.isEmpty = false := by
    cases names with
    | nil => exact absurd rfl hne
    | cons a as => rfl
  have hys : yoloSetClasses det names
      = { det with m_class_names := names, m_num_classes := (names.length : ℤ) } := by
    rw [yoloSetClasses, if_neg]
    · rfl
    · simp [hemp]
  rw [hys]
  refine ⟨rfl, rfl, rfl, rfl, rfl, rfl, ?_, ?_⟩
  · intro score
    show bestClass ((names.length : ℤ)).toNat score = bestClass names.length score
    rw [Int.toNat_natCast]
  · intro score score2 hss
    show bestClass ((names.length : ℤ)).toNat score = bestClass names.length score2
    rw [Int.toNat_natCast, bestClass, bestClass]
    exact bestClass_foldl_congr _ _ _ _
      fun c hc => hss c (List.mem_range.mp hc)

/-- Witness for C10: replacing the table with the two-name list sets the
class count to 2 and keeps the model type. -/
theorem setClassNames_effect_witness :
    (yoloSetClasses ppDet ["cat", "dog"]).m_num_classes = 2 ∧
    (yoloSetClasses ppDet ["cat", "dog"]).m_model_type = ppDet.m_model_type :=
  ⟨(setClassNames_effect ppDet ["cat", "dog"] (by decide)).2.1,
   (setClassNames_effect ppDet ["cat", "dog"] (by decide)).2.2.2.2.2.1⟩

end YoloKit
